import Mathlib

/-!
Verification development for `ramuu.py`, a script that extracts RAM price
records from vendor text.  The Python source is shallowly embedded below:
strings are `List Char`, machine integers are `Nat`/`Int`, fallible calls
return `Except PyErr`, and every Python exception that the embedded code can
raise is a `PyErr` constructor.

Modeling notes on CPython built-ins (these are the only liberties taken; the
repository functions themselves are translated line by line):
* `str.isdigit`, `str.isspace`, `str.lower`, `str.strip`, `int()` and
  `decimal.Decimal()` are modeled with their ASCII behaviour.  Non-ASCII
  digit or space classes, underscore separators in `int` literals and
  exponent notation in `Decimal` literals are outside the model.
* `decimal.Decimal` values are represented exactly as a mantissa and a
  decimal scale (`DecV`), mirroring the exact-decimal semantics; numeric
  comparison (`decLt`) cross-multiplies by powers of ten.
* `list.sort()` (stable Timsort over a total preorder) is modeled by
  `List.mergeSort`, which is also stable; with a total preorder the result
  of any stable sort is unique, so this is exact.
* `dict` iteration is modeled by association lists in insertion order.
-/

set_option maxRecDepth 16000

deriving instance DecidableEq for Except

/-- Python strings are modeled as lists of characters. -/
abbrev Str := List Char

/-- The Python exceptions that the embedded code can raise. -/
inductive PyErr where
  | typeError
  | valueError
  | zeroDivisionError
  | indexError
  | invalidOperation
  | attributeError
deriving DecidableEq

/-- CPython `str.isdigit` restricted to ASCII: the characters 0-9. -/
def pyIsDigit (c : Char) : Bool := 48 ≤ c.toNat && c.toNat ≤ 57

/-- CPython `str.isspace` restricted to ASCII whitespace. -/
def pyIsSpace (c : Char) : Bool :=
  c = ' ' || c = '\t' || c = '\n' || c = '\r' || c.toNat = 11 || c.toNat = 12

/-- CPython `str.lower` on one character, restricted to ASCII. -/
def pyLowerChar (c : Char) : Char :=
  if 65 ≤ c.toNat && c.toNat ≤ 90 then Char.ofNat (c.toNat + 32) else c

/-- CPython `str.lower`, restricted to ASCII. -/
def pyLower (s : Str) : Str := s.map pyLowerChar

/-- CPython `str.strip()`: drop leading and trailing whitespace. -/
def pyStrip (s : Str) : Str :=
  ((s.dropWhile pyIsSpace).reverse.dropWhile pyIsSpace).reverse

/-- Numeric value of a big-endian list of ASCII digit characters. -/
def digitsVal (l : Str) : Nat := l.foldl (fun a c => 10 * a + (c.toNat - 48)) 0

/-- Little-endian base-10 digits of `n`, with structural fuel (`fuel ≥ n`
suffices); agrees with `Nat.digits 10`. -/
def natDigitsAux : Nat → Nat → List Nat
  | 0, _ => []
  | fuel + 1, n => if n = 0 then [] else (n % 10) :: natDigitsAux fuel (n / 10)

/-- CPython `str(n)` for a non-negative integer: its decimal digits. -/
def natRender (n : Nat) : Str :=
  if n = 0 then ['0'] else ((natDigitsAux n n).reverse.map fun d => Char.ofNat (48 + d))

/-- Value of a non-empty all-digit string, `none` otherwise. -/
def digitsValOpt (l : Str) : Option Nat :=
  if l.isEmpty then none else if l.all pyIsDigit then some (digitsVal l) else none

/-- Sign handling of CPython `int(s)` after whitespace stripping. -/
def intParseCore : Str → Option Int
  | [] => none
  | c :: u =>
    if c = '-' then (digitsValOpt u).map fun n => -(n : Int)
    else if c = '+' then (digitsValOpt u).map fun n => (n : Int)
    else (digitsValOpt (c :: u)).map fun n => (n : Int)

/-- CPython `int(s)`: optional surrounding whitespace, optional sign, a
non-empty digit run.  Returns `none` where `int` raises `ValueError`. -/
def intParse (s : Str) : Option Int := intParseCore (pyStrip s)

/-- An exact decimal value: `mant / 10 ^ scale`.  This mirrors the
coefficient/exponent representation of `decimal.Decimal`. -/
structure DecV where
  mant : Int
  scale : Nat
deriving DecidableEq

/-- `decimal.Decimal()`: the zero sentinel. -/
def decZero : DecV := ⟨0, 0⟩

/-- Unsigned part of a `Decimal` literal: `digits`, `digits.`, `.digits` or
`digits.digits`, at least one digit in total. -/
def decCore (u : Str) : Option DecV :=
  let ip := u.takeWhile pyIsDigit
  match u.drop ip.length with
  | [] => if ip.isEmpty then none else some ⟨(digitsVal ip : Int), 0⟩
  | '.' :: fp =>
    if fp.all pyIsDigit && !(ip.isEmpty && fp.isEmpty) then
      some ⟨(digitsVal (ip ++ fp) : Int), fp.length⟩
    else none
  | _ => none

/-- CPython `decimal.Decimal(s)` on plain literals: optional surrounding
whitespace, optional sign, then `decCore`.  Returns `none` where `Decimal`
raises `InvalidOperation`. -/
def decParse (s : Str) : Option DecV :=
  match pyStrip s with
  | '-' :: u => (decCore u).map fun d => ⟨-d.mant, d.scale⟩
  | '+' :: u => decCore u
  | u => decCore u

/-- Numeric (cross-multiplied) strict order on exact decimals; this is how
`decimal.Decimal.__lt__` compares values. -/
def decLt (a b : DecV) : Bool :=
  a.mant * 10 ^ b.scale < b.mant * 10 ^ a.scale

/-- The rational value of an exact decimal (used only to reason about the
order `decLt`). -/
def DecV.val (d : DecV) : ℚ := (d.mant : ℚ) / 10 ^ d.scale

/-- The normalized capacity token: a bare size or a `count x unitSize`
pair, the two shapes of string `_parse_module_size` can return. -/
inductive ModuleSize where
  | single (n : Nat)
  | pair (mult unit : Nat)
deriving DecidableEq

/-- Both components of a token are strictly positive. -/
def ModuleSize.isPos : ModuleSize → Bool
  | .single n => 0 < n
  | .pair m u => 0 < m && 0 < u

/-- The string `_parse_module_size` renders a token to
(`str(sizes[0])` or `'{}x{}'.format(numerator // denominator, denominator)`). -/
def renderModuleSize : ModuleSize → Str
  | .single n => natRender n
  | .pair m u => natRender m ++ 'x' :: natRender u

/-- The backward walk of `_parse_module_size` from just before one `GB`
occurrence, on the reversed prefix: skip whitespace, then collect the
maximal digit run; `int(description[start:end].strip())` succeeds exactly
when the run is non-empty. -/
def candidateAt (rev : Str) : Option Nat :=
  let ds := (rev.dropWhile pyIsSpace).takeWhile pyIsDigit
  if ds.isEmpty then none else some (digitsVal ds.reverse)

/-- The `while True: end = description.find('GB', end + 1)` scan of
`_parse_module_size`, for occurrences at positive indices: `rev` is the
reversed prefix already passed, the head of the remainder is examined for a
`GB` occurrence.  (`'G' ≠ 'B'` so occurrences never overlap and scanning
every position is the same as hopping `find` results.) -/
def scanAux : Str → Str → List Nat
  | _, [] => []
  | rev, c :: rest =>
    if c = 'G' ∧ rest.head? = some 'B' then
      match candidateAt rev with
      | some n => n :: scanAux (c :: rev) rest
      | none => scanAux (c :: rev) rest
    else scanAux (c :: rev) rest

/-- The candidate list `sizes` collected by `_parse_module_size`.  The
loop's `if end <= 0: break` means a `GB` occurrence at index 0 terminates
the scan immediately with no candidates. -/
def moduleSizes (s : Str) : List Nat :=
  match s with
  | [] => []
  | c :: rest => if c = 'G' ∧ rest.head? = some 'B' then [] else scanAux [c] rest

/-- `_parse_module_size` (the Capacity Extractor), lines 106-155: `.ok none`
is Python `None`, `.error .zeroDivisionError` is the uncaught
`numerator // denominator` division by zero when the smaller of the first
two (unequal) candidates is 0. -/
def parse_module_size (s : Str) : Except PyErr (Option ModuleSize) :=
  match moduleSizes s with
  | [] => .ok none
  | [a] => .ok (some (.single a))
  | a :: b :: _ =>
    if a = b then .ok (some (.single a))
    else
      let numerator := max a b
      let denominator := min a b
      if denominator = 0 then .error .zeroDivisionError
      else .ok (some (.pair (numerator / denominator) denominator))

/-- The literal `'GB@$'`. -/
def gbAt : Str := ['G', 'B', '@', '$']

/-- Decides whether `pat` is a prefix of `l`. -/
def strHasPfx : Str → Str → Bool
  | [], _ => true
  | _ :: _, [] => false
  | p :: ps, c :: cs => if p = c then strHasPfx ps cs else false

/-- CPython `s.find(pat)`: index of the leftmost occurrence, `none` for -1. -/
def findIn (pat : Str) : Str → Option Nat
  | [] => if strHasPfx pat [] then some 0 else none
  | c :: rest =>
    if strHasPfx pat (c :: rest) then some 0 else (findIn pat rest).map (· + 1)

/-- CPython `s.find(pat, i)`: leftmost occurrence at index `≥ i`. -/
def findFrom (s pat : Str) (i : Nat) : Option Nat :=
  (findIn pat (s.drop i)).map (· + i)

/-- `description.find('x') + 1`, the left edge of the size slice in
`_parse_description` (`find` returning -1 gives 0). -/
def xStartOf (s : Str) : Nat :=
  match findIn ['x'] s with
  | none => 0
  | some i => i + 1

/-- The module count of `_parse_description`: 1 when `description.find('x')`
is at most 0, otherwise `int(description[:x_index])` (which can raise). -/
def countOf (s : Str) : Except PyErr Int :=
  match findIn ['x'] s with
  | none => .ok 1
  | some i =>
    if i = 0 then .ok 1
    else
      match intParse (s.take i) with
      | none => .error .valueError
      | some c => .ok c

/-- `_parse_description` (the Shorthand Parser), lines 70-104.  Returns
(count, size, price, brand); `j` is `space_index`, `k` is `dollar_index`.
The `TypeError` branch for non-string input is handled at the call sites
(`Slot.nonStr` in `procEntries`). -/
def parse_description (s : Str) : Except PyErr (Int × Int × DecV × Str) :=
  if s.length < 10 then .error .valueError
  else
    match countOf s with
    | .error e => .error e
    | .ok count =>
      match findIn [' '] s with
      | none => .ok (count, 0, decZero, [])
      | some j =>
        if j = 0 then .ok (count, 0, decZero, [])
        else
          let brand := s.drop (j + 1)
          match findIn gbAt s with
          | none => .ok (count, 0, decZero, brand)
          | some k =>
            if k = 0 then .ok (count, 0, decZero, brand)
            else
              match intParse ((s.take k).drop (xStartOf s)) with
              | none => .error .valueError
              | some size =>
                match decParse ((s.take j).drop (k + 4)) with
                | none => .error .invalidOperation
                | some price => .ok (count, size, price, brand)

/-- The validated price record produced by `Item.__init__`. -/
structure Item where
  date : Nat
  dimm_type : Str
  store : Str
  count : Int
  size : Int
  price : DecV
  brand : Str
deriving DecidableEq

/-- `Item.__init__`, lines 11-57: the checks in source order (the
`isinstance` checks are enforced by the types of this embedding; dates are
opaque `Nat` identifiers).  Note the length thresholds are tested on the
raw strings, while the stored strings are `strip().lower()` forms. -/
def Item.init (date : Nat) (dimm_type store : Str) (count size : Int)
    (price : DecV) (brand : Str) : Except PyErr Item :=
  if dimm_type.length < 6 then .error .valueError
  else if store.length < 5 then .error .valueError
  else if count ≤ 0 then .error .valueError
  else if size ≤ 0 then .error .valueError
  else if brand.length < 3 then .error .valueError
  else .ok ⟨date, pyLower (pyStrip dimm_type), pyLower (pyStrip store),
            count, size, price, pyLower (pyStrip brand)⟩

/-- `item.total_size`. -/
def Item.total_size (it : Item) : Int := it.count * it.size

/-- One entry of the innermost list of a historical document: a string, or a
value of any other type. -/
inductive Slot where
  | str (s : Str)
  | nonStr
deriving DecidableEq

/-- The store level of a document: a list of entries, or a non-list value. -/
inductive StoreVal where
  | list (entries : List Slot)
  | notList

/-- The module-type level: a mapping from store to store value, or a
non-mapping value. -/
inductive TypeVal where
  | dict (stores : List (Str × StoreVal))
  | notDict

/-- The date level: a mapping from module type to type value, or a
non-mapping value. -/
inductive DateVal where
  | dict (types : List (Str × TypeVal))
  | notDict

/-- A top-level document key: a `datetime.date` (opaque identifier) or a
key of any other type. -/
inductive DocKey where
  | date (d : Nat)
  | notDate

/-- A historical document: a mapping in insertion order, or a non-mapping. -/
inductive Doc where
  | dict (entries : List (DocKey × DateVal))
  | notDict

/-- The `result[date]` subscript of a `collections.defaultdict(list)`:
looking the key up creates it, bound to an empty list, at the end of the
insertion order when it is absent.  Python evaluates `result[date].append`
before constructing `Item(...)`, so this happens even when the entry is
then skipped on `ValueError`. -/
def touchKey (acc : List (Nat × List Item)) (d : Nat) :
    List (Nat × List Item) :=
  match acc with
  | [] => [(d, [])]
  | (k, l) :: rest =>
    if k = d then (k, l) :: rest else (k, l) :: touchKey rest d

/-- `list.append(it)` on the (already created) list at key `d`. -/
def appendAt (acc : List (Nat × List Item)) (d : Nat) (it : Item) :
    List (Nat × List Item) :=
  match acc with
  | [] => [(d, [it])]
  | (k, l) :: rest =>
    if k = d then (k, l ++ [it]) :: rest else (k, l) :: appendAt rest d it

/-- The `for entry in document[date][dimm_type][store]` loop of
`_parse_document`, lines 261-269: `_parse_description` is called unguarded
(a non-string entry raises `TypeError`, a malformed one propagates its
error), and only `ValueError` from the `Item` constructor is caught
(reported and skipped).  Evaluation order of
`result[date].append(Item(...))` matters: the defaultdict subscript
`result[date]` runs first and creates the date key with an empty list, and
only then is `Item(...)` constructed — so an entry skipped on `ValueError`
still leaves the key behind (`touchKey`). -/
def procEntries (d : Nat) (t st : Str) (acc : List (Nat × List Item)) :
    List Slot → Except PyErr (List (Nat × List Item))
  | [] => .ok acc
  | .nonStr :: _ => .error .typeError
  | .str s :: rest =>
    match parse_description s with
    | .error e => .error e
    | .ok (count, size, price, brand) =>
      if 0 < size then
        match Item.init d t st count size price brand with
        | .ok it => procEntries d t st (appendAt (touchKey acc d) d it) rest
        | .error .valueError => procEntries d t st (touchKey acc d) rest
        | .error e => .error e
      else procEntries d t st acc rest

/-- The `for store in document[date][dimm_type]` loop: non-list store
values are skipped. -/
def procStores (d : Nat) (t : Str) (acc : List (Nat × List Item)) :
    List (Str × StoreVal) → Except PyErr (List (Nat × List Item))
  | [] => .ok acc
  | (_, .notList) :: rest => procStores d t acc rest
  | (st, .list entries) :: rest =>
    match procEntries d t st acc entries with
    | .error e => .error e
    | .ok acc2 => procStores d t acc2 rest

/-- The `for dimm_type in document[date]` loop: non-dict type values are
skipped. -/
def procTypes (d : Nat) (acc : List (Nat × List Item)) :
    List (Str × TypeVal) → Except PyErr (List (Nat × List Item))
  | [] => .ok acc
  | (_, .notDict) :: rest => procTypes d acc rest
  | (t, .dict stores) :: rest =>
    match procStores d t acc stores with
    | .error e => .error e
    | .ok acc2 => procTypes d acc2 rest

/-- The `for date in document` loop: non-date keys and non-dict date values
are skipped. -/
def procDates (acc : List (Nat × List Item)) :
    List (DocKey × DateVal) → Except PyErr (List (Nat × List Item))
  | [] => .ok acc
  | (.notDate, _) :: rest => procDates acc rest
  | (.date _, .notDict) :: rest => procDates acc rest
  | (.date d, .dict types) :: rest =>
    match procTypes d acc types with
    | .error e => .error e
    | .ok acc2 => procDates acc2 rest

/-- `_parse_document`, lines 238-270: a non-dict document yields `{}`. -/
def parse_document : Doc → Except PyErr (List (Nat × List Item))
  | .notDict => .ok []
  | .dict entries => procDates [] entries

/-- CPython `str.__lt__`-style comparison as a `≤`: code-point
lexicographic order. -/
def strLe : Str → Str → Bool
  | [], _ => true
  | _ :: _, [] => false
  | a :: as, b :: bs =>
    if a.toNat < b.toNat then true
    else if b.toNat < a.toNat then false
    else strLe as bs

/-- The order `descriptions.sort()` sorts by: Python tuple comparison on
`(Decimal, str)` pairs — numeric on the price, and on numerically equal
prices, lexicographic on the description string. -/
def tupleLe (a b : DecV × Str) : Bool :=
  if decLt a.1 b.1 then true
  else if decLt b.1 a.1 then false
  else strLe a.2 b.2

/-- `tupleLe` as a decidable relation. -/
def rTuple (a b : DecV × Str) : Prop := tupleLe a b = true

instance : DecidableRel rTuple := fun a b => instDecidableEqBool (tupleLe a b) true

/-- `descriptions.sort()`: a stable sort by `tupleLe`.  Timsort is a stable
sort over this total preorder, and every stable sort over a total preorder
produces the same list, so the stable `insertionSort` is an exact model. -/
def pySort (l : List (DecV × Str)) : List (DecV × Str) := l.insertionSort rTuple

/-- `price.replace(',', '')`. -/
def replaceComma (s : Str) : Str := s.filter (fun c => !(c = ','))

/-- `'{}'.format(v)` for an optional string: `None` formats as `"None"`. -/
def optStr : Option Str → Str
  | some s => s
  | none => "None".toList

/-- The canonical shorthand composition shared by both adapters:
`size + 'GB@${} {}'.format(price, brand)`. -/
def composeDesc (tok : ModuleSize) (price brand : Str) : Str :=
  renderModuleSize tok ++ gbAt ++ price ++ ' ' :: brand

/-- First whitespace position in `l`. -/
def idxWs : Str → Option Nat
  | [] => none
  | c :: r => if pyIsSpace c then some 0 else (idxWs r).map (· + 1)

/-- First whitespace position at index `≥ i`: the
`while not title[brand_end].isspace(): brand_end += 1` walk, which raises
`IndexError` when it runs past the end of the title. -/
def idxWsFrom (l : Str) (i : Nat) : Option Nat := (idxWs (l.drop i)).map (· + i)

/-- Python slice normalization for `s[a:b]` with step 1. -/
def pyIdx (n : Nat) (i : Int) : Nat :=
  if i < 0 then (i + n).toNat else min i.toNat n

/-- Python slice `s[a:b]` (step 1), including negative-index semantics. -/
def pySlice (s : Str) (a b : Int) : Str :=
  (s.take (pyIdx s.length b)).drop (pyIdx s.length a)

/-- One product object of the micro center `productImpressions` list (the
fields read by lines 175-184); `none` models a missing or non-string
field. -/
inductive PyProd where
  | obj (name brand price : Option Str)
  | notDict

/-- The `for product in products` loop of `_parse_micro_center`, lines
174-184.  `product.get('name')` returning a non-string makes
`_parse_module_size` raise `TypeError`; a `None` price makes
`price.replace` raise `AttributeError`; candidates are appended in
discovery order. -/
def microLoop (acc : List (DecV × Str)) :
    List PyProd → Except PyErr (List (DecV × Str))
  | [] => .ok acc
  | .notDict :: rest => microLoop acc rest
  | .obj name brand price :: rest =>
    match name with
    | none => .error .typeError
    | some nm =>
      match parse_module_size nm with
      | .error e => .error e
      | .ok none => microLoop acc rest
      | .ok (some tok) =>
        let desc := renderModuleSize tok ++ gbAt ++ optStr price ++ ' ' :: optStr brand
        match price with
        | none => .error .attributeError
        | some p =>
          match decParse (replaceComma p) with
          | none => .error .invalidOperation
          | some q => microLoop (acc ++ [(q, desc)]) rest

/-- The `(price, description)` pairs of `_parse_micro_center` in discovery
order, before the final sort.  The quasi-JSON isolation of lines 168-170
(`find`, quote replacement, `json.loads`) is the input boundary of this
model: the function is given the decoded product list. -/
def microPairs (products : List PyProd) : Except PyErr (List (DecV × Str)) :=
  microLoop [] products

/-- `_parse_micro_center` from the decoded product list on: collect pairs,
then `descriptions.sort()` (lines 186-192; printing is I/O and has no
effect on the returned value). -/
def parse_micro_center_products (products : List PyProd) :
    Except PyErr (List (DecV × Str)) :=
  (microPairs products).map pySort

/-- The literal `'<title>'`. -/
def tagOpen : Str := "<title>".toList

/-- The literal `'</title>'`. -/
def tagClose : Str := "</title>".toList

/-- The literal `'&#36;'`. -/
def dollarEnt : Str := "&#36;".toList

/-- The literal `' - '`. -/
def sepDash : Str := " - ".toList

/-- The `while True` loop of `_parse_newegg`, lines 206-228, accumulating
`(price, description)` pairs in discovery order.  `searchFrom` is
`start + 1` of the source; the loop breaks when `find` returns -1 or 0.
`fuel` only bounds the recursion; it starts at `length + 1` which exceeds
the number of possible `<title>` positions, so exhaustion is unreachable. -/
def neweggLoop (fuel : Nat) (s : Str) (searchFrom : Nat)
    (acc : List (DecV × Str)) : Except PyErr (List (DecV × Str)) :=
  match fuel with
  | 0 => .ok acc
  | fuel + 1 =>
    match findFrom s tagOpen searchFrom with
    | none => .ok acc
    | some i =>
      if i = 0 then .ok acc
      else
        let endZ : Int :=
          match findFrom s tagClose (i + 7) with
          | none => -1
          | some e => (e : Int)
        let title := pyStrip (pySlice s ((i : Int) + 7) endZ)
        if strHasPfx dollarEnt title then
          let t := title.drop 5
          match parse_module_size t with
          | .error e => .error e
          | .ok none => neweggLoop fuel s (i + 1) acc
          | .ok (some tok) =>
            let sepZ : Int :=
              match findIn sepDash t with
              | none => -1
              | some j => (j : Int)
            let price := pySlice t 0 sepZ
            match idxWsFrom t (sepZ + 3).toNat with
            | none => .error .indexError
            | some be =>
              let brand := pyStrip (pySlice t (sepZ + 3) (be : Int))
              let desc := renderModuleSize tok ++ gbAt ++ price ++ ' ' :: brand
              match decParse (replaceComma price) with
              | none => .error .invalidOperation
              | some q => neweggLoop fuel s (i + 1) (acc ++ [(q, desc)])
        else neweggLoop fuel s (i + 1) acc

/-- The `(price, description)` pairs of `_parse_newegg` in discovery order,
before the final sort. -/
def neweggPairs (s : Str) : Except PyErr (List (DecV × Str)) :=
  neweggLoop (s.length + 1) s 0 []

/-- `_parse_newegg`, lines 194-236: collect pairs, then
`descriptions.sort()` (printing is I/O and has no effect on the returned
value). -/
def parse_newegg (s : Str) : Except PyErr (List (DecV × Str)) :=
  (neweggPairs s).map pySort

/-- A `GB` marker occurrence at index `i` of `s`. -/
def markerAt (s : Str) (i : Nat) : Bool := strHasPfx ['G', 'B'] (s.drop i)

/-- The fragment begins with the `GB` marker (the scan of
`_parse_module_size` then aborts at once). -/
def startsGB (s : Str) : Bool := strHasPfx ['G', 'B'] s

/-! ### Character and string facts -/

theorem ws_ne_G {c : Char} (h : pyIsSpace c = true) : c ≠ 'G' := by
  intro hc; rw [hc] at h; exact absurd h (by decide)

theorem ws_ne_B {c : Char} (h : pyIsSpace c = true) : c ≠ 'B' := by
  intro hc; rw [hc] at h; exact absurd h (by decide)

theorem digit_ne_G {c : Char} (h : pyIsDigit c = true) : c ≠ 'G' := by
  intro hc; rw [hc] at h; exact absurd h (by decide)

theorem digit_ne_x {c : Char} (h : pyIsDigit c = true) : c ≠ 'x' := by
  intro hc; rw [hc] at h; exact absurd h (by decide)

theorem digit_ne_minus {c : Char} (h : pyIsDigit c = true) : c ≠ '-' := by
  intro hc; rw [hc] at h; exact absurd h (by decide)

theorem digit_ne_plus {c : Char} (h : pyIsDigit c = true) : c ≠ '+' := by
  intro hc; rw [hc] at h; exact absurd h (by decide)

theorem digit_ne_space {c : Char} (h : pyIsDigit c = true) : c ≠ ' ' := by
  intro hc; rw [hc] at h; exact absurd h (by decide)

theorem space_toNat_le {c : Char} (h : pyIsSpace c = true) : c.toNat ≤ 32 := by
  unfold pyIsSpace at h
  simp only [Bool.or_eq_true] at h
  rcases h with ((((h1 | h1) | h1) | h1) | h1) | h1
  · have hc := of_decide_eq_true h1; subst hc; decide
  · have hc := of_decide_eq_true h1; subst hc; decide
  · have hc := of_decide_eq_true h1; subst hc; decide
  · have hc := of_decide_eq_true h1; subst hc; decide
  · have hc := of_decide_eq_true h1; omega
  · have hc := of_decide_eq_true h1; omega

theorem digit_toNat_ge {c : Char} (h : pyIsDigit c = true) : 48 ≤ c.toNat := by
  unfold pyIsDigit at h
  simp only [Bool.and_eq_true] at h
  exact of_decide_eq_true h.1

theorem digit_not_isSpace {c : Char} (h : pyIsDigit c = true) :
    pyIsSpace c = false := by
  cases hb : pyIsSpace c with
  | false => rfl
  | true =>
    exfalso
    have h1 := digit_toNat_ge h
    have h2 := space_toNat_le hb
    omega

theorem dropWhile_eq_self_of_not {p : Char → Bool} :
    ∀ {l : Str}, (∀ c ∈ l, p c = false) → l.dropWhile p = l
  | [], _ => rfl
  | c :: r, h => by
    simp [List.dropWhile_cons, h c (List.mem_cons_self c r)]

theorem pyStrip_eq_self {l : Str} (h : ∀ c ∈ l, pyIsSpace c = false) :
    pyStrip l = l := by
  unfold pyStrip
  rw [dropWhile_eq_self_of_not h]
  rw [dropWhile_eq_self_of_not (fun c hc => h c (List.mem_reverse.mp hc))]
  exact List.reverse_reverse l

/-! ### Decimal rendering of naturals and its round trip -/

theorem natDigitsAux_eq : ∀ (fuel n : Nat), n ≤ fuel →
    natDigitsAux fuel n = Nat.digits 10 n := by
  intro fuel
  induction fuel with
  | zero =>
    intro n hn
    interval_cases n
    simp [natDigitsAux]
  | succ fuel ih =>
    intro n hn
    by_cases h0 : n = 0
    · subst h0; simp [natDigitsAux]
    · rw [natDigitsAux, if_neg h0,
        Nat.digits_def' (by norm_num : 1 < 10) (Nat.pos_of_ne_zero h0),
        ih (n / 10) (by omega)]

theorem foldl_rev_ofDigits : ∀ (L : List Nat) (acc : Nat),
    L.reverse.foldl (fun a d => 10 * a + d) acc =
      acc * 10 ^ L.length + Nat.ofDigits 10 L := by
  intro L
  induction L with
  | nil => intro acc; simp [Nat.ofDigits]
  | cons d L ih =>
    intro acc
    rw [List.reverse_cons, List.foldl_append, ih acc]
    simp only [List.foldl_cons, List.foldl_nil, List.length_cons,
      Nat.ofDigits_cons]
    ring

theorem digitChar_toNat {d : Nat} (h : d < 10) :
    (Char.ofNat (48 + d)).toNat = 48 + d := by
  interval_cases d <;> decide

theorem digitChar_isDigit {d : Nat} (h : d < 10) :
    pyIsDigit (Char.ofNat (48 + d)) = true := by
  interval_cases d <;> decide

theorem natRender_ne_nil (n : Nat) : natRender n ≠ [] := by
  unfold natRender
  by_cases h0 : n = 0
  · simp [h0]
  · rw [if_neg h0, natDigitsAux_eq n n le_rfl]
    simp [Nat.digits_ne_nil_iff_ne_zero.mpr h0]

theorem natRender_all_digit {n : Nat} {c : Char} (hc : c ∈ natRender n) :
    pyIsDigit c = true := by
  unfold natRender at hc
  by_cases h0 : n = 0
  · rw [if_pos h0] at hc
    simp only [List.mem_singleton] at hc
    rw [hc]; decide
  · rw [if_neg h0, natDigitsAux_eq n n le_rfl] at hc
    simp only [List.mem_map, List.mem_reverse] at hc
    obtain ⟨d, hd, rfl⟩ := hc
    exact digitChar_isDigit (Nat.digits_lt_base (by norm_num) hd)

theorem digitsVal_natRender (n : Nat) : digitsVal (natRender n) = n := by
  unfold natRender
  by_cases h0 : n = 0
  · rw [if_pos h0, h0]; rfl
  · rw [if_neg h0, natDigitsAux_eq n n le_rfl]
    unfold digitsVal
    rw [List.foldl_map]
    have hext : (Nat.digits 10 n).reverse.foldl
        (fun a d => 10 * a + ((Char.ofNat (48 + d)).toNat - 48)) 0 =
        (Nat.digits 10 n).reverse.foldl (fun a d => 10 * a + d) 0 := by
      apply List.foldl_ext
      intro a d hd
      rw [digitChar_toNat (Nat.digits_lt_base (by norm_num)
        (List.mem_reverse.mp hd))]
      omega
    rw [hext, foldl_rev_ofDigits, Nat.ofDigits_digits]
    omega

theorem intParse_natRender (n : Nat) : intParse (natRender n) = some (n : Int) := by
  have hall : ∀ c ∈ natRender n, pyIsDigit c = true := fun _ hc => natRender_all_digit hc
  have hstrip : pyStrip (natRender n) = natRender n :=
    pyStrip_eq_self (fun c hc => digit_not_isSpace (hall c hc))
  unfold intParse
  rw [hstrip]
  obtain ⟨c, u, hcu⟩ : ∃ c u, natRender n = c :: u := by
    cases h : natRender n with
    | nil => exact absurd h (natRender_ne_nil n)
    | cons c u => exact ⟨c, u, rfl⟩
  rw [hcu]
  have hc : pyIsDigit c = true := hall c (hcu ▸ List.mem_cons_self c u)
  rw [intParseCore, if_neg (digit_ne_minus hc), if_neg (digit_ne_plus hc)]
  have hval : digitsValOpt (c :: u) = some (digitsVal (c :: u)) := by
    unfold digitsValOpt
    rw [if_neg (by simp), if_pos]
    rw [List.all_eq_true]
    intro x hx
    exact hall x (hcu ▸ hx)
  rw [hval, ← hcu, digitsVal_natRender]
  rfl

/-! ### Locating substrings -/

theorem strHasPfx_self_append (p rest : Str) : strHasPfx p (p ++ rest) = true := by
  induction p with
  | nil => rfl
  | cons a p ih => simp [strHasPfx, ih]

theorem findIn_of_pfx {pt l : Str} (h : strHasPfx pt l = true) :
    findIn pt l = some 0 := by
  cases l with
  | nil => simp [findIn, h]
  | cons c rest => simp [findIn, h]

theorem findIn_head_notin (x : Char) (pt : Str) :
    ∀ l : Str, x ∉ l → findIn (x :: pt) l = none := by
  intro l
  induction l with
  | nil => intro _; simp [findIn, strHasPfx]
  | cons c r ih =>
    intro h
    have hxc : x ≠ c := fun hx => h (hx ▸ List.mem_cons_self c r)
    have hxr : x ∉ r := fun hx => h (List.mem_cons_of_mem c hx)
    simp [findIn, strHasPfx, if_neg hxc, ih hxr]

theorem findIn_append_notin (x : Char) (pt : Str) :
    ∀ (A B : Str), x ∉ A →
      findIn (x :: pt) (A ++ B) = (findIn (x :: pt) B).map (· + A.length) := by
  intro A
  induction A with
  | nil =>
    intro B _
    cases h : findIn (x :: pt) B <;> simp [h]
  | cons a A ih =>
    intro B hA
    have hxa : x ≠ a := fun hx => hA (hx ▸ List.mem_cons_self a A)
    have hxA : x ∉ A := fun hx => hA (List.mem_cons_of_mem a hx)
    have hpfx : strHasPfx (x :: pt) (a :: (A ++ B)) = false := by
      simp [strHasPfx, if_neg hxa]
    rw [List.cons_append, findIn, if_neg (by simp [hpfx]), ih B hxA]
    cases h : findIn (x :: pt) B
    · simp [h]
    · simp [h]; omega

theorem take_exact {A B : Str} {n : Nat} (h : A.length = n) :
    (A ++ B).take n = A := by
  subst h; exact List.take_left A B

theorem drop_exact {A B : Str} {n : Nat} (h : A.length = n) :
    (A ++ B).drop n = B := by
  subst h; exact List.drop_left A B

theorem drop_exact_add {A B : Str} {n k : Nat} (h : A.length = n) :
    (A ++ B).drop (n + k) = B.drop k := by
  subst h; exact List.drop_append k

theorem notin_append {x : Char} {A B : Str} (hA : x ∉ A) (hB : x ∉ B) :
    x ∉ A ++ B := by
  intro h
  rcases List.mem_append.mp h with h | h
  · exact hA h
  · exact hB h

theorem notin_natRender {x : Char} (hx : pyIsDigit x = false) (n : Nat) :
    x ∉ natRender n := by
  intro h
  rw [natRender_all_digit h] at hx
  exact Bool.noConfusion hx

/-! ### The capacity scan: whitespace insertion and the no-candidate law -/

theorem dropWhile_ws_append {w : Str} (hw : ∀ c ∈ w, pyIsSpace c = true) (X : Str) :
    (w ++ X).dropWhile pyIsSpace = X.dropWhile pyIsSpace := by
  induction w with
  | nil => rfl
  | cons c w ih =>
    rw [List.cons_append, List.dropWhile_cons, hw c (List.mem_cons_self c w),
      if_pos rfl]
    exact ih (fun d hd => hw d (List.mem_cons_of_mem c hd))

theorem candidateAt_ws_front {w : Str} (hw : ∀ c ∈ w, pyIsSpace c = true)
    (X : Str) : candidateAt (w ++ X) = candidateAt X := by
  unfold candidateAt
  rw [dropWhile_ws_append hw]

theorem candidateAt_cons_ws {a : Char} (ha : pyIsSpace a = true) (l : Str) :
    candidateAt (a :: l) = candidateAt l := by
  unfold candidateAt
  rw [List.dropWhile_cons, ha, if_pos rfl]

theorem takeWhile_stop {p : Char → Bool} {c : Char} (hc : p c = false) :
    ∀ (xs zs zs' : Str),
      (xs ++ c :: zs).takeWhile p = (xs ++ c :: zs').takeWhile p := by
  intro xs
  induction xs with
  | nil =>
    intro zs zs'
    simp [List.takeWhile_cons, hc]
  | cons a xs ih =>
    intro zs zs'
    cases hpa : p a with
    | false => simp [List.takeWhile_cons, hpa]
    | true => simp [List.takeWhile_cons, hpa, ih zs zs']

theorem candidateAt_stop_B : ∀ (xs zs zs' : Str),
    candidateAt (xs ++ 'B' :: zs) = candidateAt (xs ++ 'B' :: zs') := by
  intro xs
  induction xs with
  | nil =>
    intro zs zs'
    rw [List.nil_append, List.nil_append]
    simp [candidateAt, List.dropWhile_cons, List.takeWhile_cons,
      show pyIsSpace 'B' = false from by decide,
      show pyIsDigit 'B' = false from by decide]
  | cons a xs ih =>
    intro zs zs'
    rw [List.cons_append, List.cons_append]
    cases hpa : pyIsSpace a with
    | true =>
      rw [candidateAt_cons_ws hpa, candidateAt_cons_ws hpa]
      exact ih zs zs'
    | false =>
      unfold candidateAt
      rw [List.dropWhile_cons, hpa, List.dropWhile_cons, hpa]
      simp only [Bool.false_eq_true, if_false]
      rw [← List.cons_append, ← List.cons_append,
        takeWhile_stop (show pyIsDigit 'B' = false from by decide) (a :: xs) zs zs']

theorem scanAux_congr_B : ∀ (rest xs zs zs' : Str),
    scanAux (xs ++ 'B' :: zs) rest = scanAux (xs ++ 'B' :: zs') rest := by
  intro rest
  induction rest with
  | nil => intro xs zs zs'; rfl
  | cons c rest ih =>
    intro xs zs zs'
    simp only [scanAux]
    rw [candidateAt_stop_B xs zs zs']
    have hrec : scanAux (c :: (xs ++ 'B' :: zs)) rest =
        scanAux (c :: (xs ++ 'B' :: zs')) rest := by
      rw [← List.cons_append, ← List.cons_append]
      exact ih (c :: xs) zs zs'
    by_cases hcond : c = 'G' ∧ rest.head? = some 'B'
    · rw [if_pos hcond, if_pos hcond]
      cases candidateAt (xs ++ 'B' :: zs') <;> simp [hrec]
    · rw [if_neg hcond, if_neg hcond]
      exact hrec

theorem scanAux_ws_skip : ∀ (w : Str), (∀ c ∈ w, pyIsSpace c = true) →
    ∀ (rev rest : Str), scanAux rev (w ++ rest) = scanAux (w.reverse ++ rev) rest := by
  intro w
  induction w with
  | nil => intro _ rev rest; simp
  | cons c w ih =>
    intro hw rev rest
    have hc : pyIsSpace c = true := hw c (List.mem_cons_self c w)
    rw [List.cons_append]
    simp only [scanAux]
    rw [if_neg (fun h => ws_ne_G hc h.1)]
    rw [ih (fun d hd => hw d (List.mem_cons_of_mem c hd)) (c :: rev) rest]
    simp [List.reverse_cons, List.append_assoc]

theorem scanAux_cons (rev : Str) (c : Char) (rest : Str) :
    scanAux rev (c :: rest) =
      if c = 'G' ∧ rest.head? = some 'B' then
        match candidateAt rev with
        | some n => n :: scanAux (c :: rev) rest
        | none => scanAux (c :: rev) rest
      else scanAux (c :: rev) rest := rfl

theorem scanAux_ws_marker {w w' : Str} (hw : ∀ c ∈ w, pyIsSpace c = true)
    (hw' : ∀ c ∈ w', pyIsSpace c = true) (rev r : Str) :
    scanAux rev (w ++ 'G' :: 'B' :: r) = scanAux rev (w' ++ 'G' :: 'B' :: r) := by
  rw [scanAux_ws_skip w hw, scanAux_ws_skip w' hw']
  have hrw : ∀ c ∈ w.reverse, pyIsSpace c = true :=
    fun c hc => hw c (List.mem_reverse.mp hc)
  have hrw' : ∀ c ∈ w'.reverse, pyIsSpace c = true :=
    fun c hc => hw' c (List.mem_reverse.mp hc)
  have hrec : scanAux ('B' :: 'G' :: (w.reverse ++ rev)) r =
      scanAux ('B' :: 'G' :: (w'.reverse ++ rev)) r := by
    have hB := scanAux_congr_B r [] ('G' :: (w.reverse ++ rev))
      ('G' :: (w'.reverse ++ rev))
    simpa using hB
  rw [scanAux_cons (w.reverse ++ rev) 'G' ('B' :: r),
    scanAux_cons (w'.reverse ++ rev) 'G' ('B' :: r)]
  rw [if_pos ⟨rfl, rfl⟩]
  rw [candidateAt_ws_front hrw rev, candidateAt_ws_front hrw' rev]
  rw [scanAux_cons ('G' :: (w.reverse ++ rev)) 'B' r,
    scanAux_cons ('G' :: (w'.reverse ++ rev)) 'B' r]
  rw [if_neg (show ¬('B' = 'G' ∧ r.head? = some 'B') from
      fun h => absurd h.1 (by decide))]
  rw [if_neg (show ¬('B' = 'G' ∧ r.head? = some 'B') from
      fun h => absurd h.1 (by decide))]
  rw [hrec]
  rw [if_pos ⟨rfl, rfl⟩]

theorem scanAux_ext_after : ∀ (u : Str) (rev rest rest' : Str),
    (rest.head? = some 'B' ↔ rest'.head? = some 'B') →
    (∀ pre : Str, scanAux (pre ++ rev) rest = scanAux (pre ++ rev) rest') →
    scanAux rev (u ++ rest) = scanAux rev (u ++ rest') := by
  intro u
  induction u with
  | nil =>
    intro rev rest rest' _ h2
    have h0 := h2 []
    simpa using h0
  | cons c u ih =>
    intro rev rest rest' h1 h2
    rw [List.cons_append, List.cons_append]
    simp only [scanAux]
    have hcond : (c = 'G' ∧ (u ++ rest).head? = some 'B') ↔
        (c = 'G' ∧ (u ++ rest').head? = some 'B') := by
      cases u with
      | nil => simpa using and_congr_right (fun _ => h1)
      | cons a u2 => simp
    have h2' : ∀ pre : Str, scanAux (pre ++ (c :: rev)) rest =
        scanAux (pre ++ (c :: rev)) rest' := by
      intro pre
      have := h2 (pre ++ [c])
      simpa [List.append_assoc] using this
    by_cases hc : c = 'G' ∧ (u ++ rest).head? = some 'B'
    · rw [if_pos hc, if_pos (hcond.mp hc)]
      have hr := ih (c :: rev) rest rest' h1 h2'
      cases candidateAt rev <;> simp [hr]
    · rw [if_neg hc, if_neg (fun h => hc (hcond.mpr h))]
      exact ih (c :: rev) rest rest' h1 h2'

theorem head_ws_marker_ne_B {w r : Str} (hw : ∀ c ∈ w, pyIsSpace c = true) :
    ¬ (w ++ 'G' :: 'B' :: r).head? = some 'B' := by
  cases w with
  | nil => simp
  | cons b w' =>
    intro h
    simp only [List.cons_append, List.head?_cons, Option.some.injEq] at h
    exact ws_ne_B (hw b (List.mem_cons_self b w')) h

theorem moduleSizes_ws_insert {u w w' r : Str} (hu : u ≠ [])
    (hw : ∀ c ∈ w, pyIsSpace c = true) (hw' : ∀ c ∈ w', pyIsSpace c = true) :
    moduleSizes (u ++ w ++ 'G' :: 'B' :: r) =
      moduleSizes (u ++ w' ++ 'G' :: 'B' :: r) := by
  cases u with
  | nil => exact absurd rfl hu
  | cons c u' =>
    rw [List.append_assoc, List.append_assoc, List.cons_append, List.cons_append]
    simp only [moduleSizes]
    have hiff : ((w ++ 'G' :: 'B' :: r).head? = some 'B') ↔
        ((w' ++ 'G' :: 'B' :: r).head? = some 'B') :=
      iff_of_false (head_ws_marker_ne_B hw) (head_ws_marker_ne_B hw')
    have hcond : (c = 'G' ∧ (u' ++ (w ++ 'G' :: 'B' :: r)).head? = some 'B') ↔
        (c = 'G' ∧ (u' ++ (w' ++ 'G' :: 'B' :: r)).head? = some 'B') := by
      cases u' with
      | nil => simpa using and_congr_right (fun _ => hiff)
      | cons a u2 => simp
    by_cases hc : c = 'G' ∧ (u' ++ (w ++ 'G' :: 'B' :: r)).head? = some 'B'
    · rw [if_pos hc, if_pos (hcond.mp hc)]
    · rw [if_neg hc, if_neg (fun h => hc (hcond.mpr h))]
      exact scanAux_ext_after u' [c] (w ++ 'G' :: 'B' :: r) (w' ++ 'G' :: 'B' :: r)
        hiff (fun pre => scanAux_ws_marker hw hw' (pre ++ [c]) r)

theorem strHasPfx_GB (c : Char) (rest : Str) :
    strHasPfx ['G', 'B'] (c :: rest) = true ↔
      (c = 'G' ∧ rest.head? = some 'B') := by
  cases rest with
  | nil =>
    constructor
    · intro h
      by_cases hc : 'G' = c
      · subst hc
        exact absurd h (by decide)
      · rw [show strHasPfx ['G', 'B'] (c :: []) = false from by
          simp [strHasPfx, if_neg hc]] at h
        exact absurd h (by simp)
    · rintro ⟨rfl, h2⟩
      exact absurd h2 (by simp)
  | cons b t =>
    constructor
    · intro h
      by_cases hc : 'G' = c
      · subst hc
        by_cases hb : 'B' = b
        · subst hb
          exact ⟨rfl, rfl⟩
        · rw [show strHasPfx ['G', 'B'] ('G' :: b :: t) = false from by
            simp [strHasPfx, if_neg hb]] at h
          exact absurd h (by simp)
      · rw [show strHasPfx ['G', 'B'] (c :: b :: t) = false from by
          simp [strHasPfx, if_neg hc]] at h
        exact absurd h (by simp)
    · rintro ⟨rfl, h2⟩
      have hb : b = 'B' := by
        simpa using h2
      subst hb
      simp [strHasPfx]

theorem markerAt_succ (c : Char) (rest : Str) (j : Nat) :
    markerAt (c :: rest) (j + 1) = markerAt rest j := rfl

theorem markerAt_zero_iff (c : Char) (rest : Str) :
    markerAt (c :: rest) 0 = true ↔ (c = 'G' ∧ rest.head? = some 'B') := by
  unfold markerAt
  rw [List.drop_zero]
  exact strHasPfx_GB c rest

theorem scanAux_nil_iff : ∀ (rest rev : Str),
    (scanAux rev rest = [] ↔
      ∀ i, markerAt rest i = true →
        candidateAt ((rest.take i).reverse ++ rev) = none) := by
  intro rest
  induction rest with
  | nil =>
    intro rev
    simp [scanAux, markerAt, strHasPfx]
  | cons c rest ih =>
    intro rev
    rw [scanAux_cons]
    have htake : ∀ j : Nat, (((c :: rest).take (j + 1)).reverse ++ rev) =
        ((rest.take j).reverse ++ (c :: rev)) := by
      intro j
      rw [List.take_succ_cons, List.reverse_cons, List.append_assoc]
      rfl
    by_cases hcond : c = 'G' ∧ rest.head? = some 'B'
    · rw [if_pos hcond]
      have hm0 : markerAt (c :: rest) 0 = true := (markerAt_zero_iff c rest).mpr hcond
      cases hca : candidateAt rev with
      | some n =>
        constructor
        · intro h
          exact absurd h (by simp)
        · intro h
          have h0 := h 0 hm0
          rw [List.take_zero, List.reverse_nil, List.nil_append, hca] at h0
          exact absurd h0 (by simp)
      | none =>
        rw [ih (c :: rev)]
        constructor
        · intro h i hm
          cases i with
          | zero => rw [List.take_zero, List.reverse_nil, List.nil_append, hca]
          | succ j =>
            rw [htake j]
            exact h j (by rw [← markerAt_succ c rest j]; exact hm)
        · intro h j hm
          have hj := h (j + 1) (by rw [markerAt_succ c rest j]; exact hm)
          rw [htake j] at hj
          exact hj
    · rw [if_neg hcond]
      rw [ih (c :: rev)]
      have hm0 : markerAt (c :: rest) 0 = false := by
        cases hmk : markerAt (c :: rest) 0 with
        | false => rfl
        | true => exact absurd ((markerAt_zero_iff c rest).mp hmk) hcond
      constructor
      · intro h i hm
        cases i with
        | zero => rw [hm0] at hm; exact absurd hm (by simp)
        | succ j =>
          rw [htake j]
          exact h j (by rw [← markerAt_succ c rest j]; exact hm)
      · intro h j hm
        have hj := h (j + 1) (by rw [markerAt_succ c rest j]; exact hm)
        rw [htake j] at hj
        exact hj

theorem moduleSizes_cons (c : Char) (rest : Str) :
    moduleSizes (c :: rest) =
      if c = 'G' ∧ rest.head? = some 'B' then [] else scanAux [c] rest := rfl

theorem startsGB_cons_iff (c : Char) (rest : Str) :
    startsGB (c :: rest) = true ↔ (c = 'G' ∧ rest.head? = some 'B') :=
  strHasPfx_GB c rest

theorem parse_module_size_nil {s : Str} (h : moduleSizes s = []) :
    parse_module_size s = .ok none := by
  unfold parse_module_size
  rw [h]

theorem parse_module_size_one {s : Str} {a : Nat} (h : moduleSizes s = [a]) :
    parse_module_size s = .ok (some (.single a)) := by
  unfold parse_module_size
  rw [h]

theorem parse_module_size_two {s : Str} {a b : Nat} {t : List Nat}
    (h : moduleSizes s = a :: b :: t) :
    parse_module_size s =
      if a = b then .ok (some (.single a))
      else if min a b = 0 then .error .zeroDivisionError
      else .ok (some (.pair (max a b / min a b) (min a b))) := by
  unfold parse_module_size
  rw [h]

theorem parse_module_size_ok_none_iff (s : Str) :
    parse_module_size s = .ok none ↔ moduleSizes s = [] := by
  cases h : moduleSizes s with
  | nil => simp [parse_module_size_nil h]
  | cons a t =>
    cases t with
    | nil => simp [parse_module_size_one h]
    | cons b t2 =>
      rw [parse_module_size_two h]
      by_cases hab : a = b
      · rw [if_pos hab]; simp
      · rw [if_neg hab]
        by_cases hd : min a b = 0
        · rw [if_pos hd]; simp
        · rw [if_neg hd]; simp

/-! ### Claims about the Capacity Extractor -/

/-- C5 (amended): the Capacity Extractor reports "not found" exactly when
the fragment begins with the `GB` marker (in which case `find` returns 0 and
the scan aborts before examining any later occurrence) or when no marker
occurrence in the fragment has a digit run immediately before it after
skipping whitespace.  The original claim — that an occurrence at the very
start of the fragment is harmless and every later occurrence is still
scanned — fails: a leading marker suppresses all candidates. -/
theorem claim_C5_not_found_iff (s : Str) :
    parse_module_size s = .ok none ↔
      (startsGB s = true ∨
        ∀ i, markerAt s i = true → candidateAt ((s.take i).reverse) = none) := by
  rw [parse_module_size_ok_none_iff]
  cases s with
  | nil => simp [moduleSizes, startsGB, strHasPfx, markerAt]
  | cons c rest =>
    rw [moduleSizes_cons]
    by_cases hGB : c = 'G' ∧ rest.head? = some 'B'
    · rw [if_pos hGB]
      constructor
      · intro _
        exact Or.inl ((startsGB_cons_iff c rest).mpr hGB)
      · intro _; rfl
    · rw [if_neg hGB]
      rw [scanAux_nil_iff rest [c]]
      have hsGB : startsGB (c :: rest) = false := by
        cases hx : startsGB (c :: rest) with
        | false => rfl
        | true => exact absurd ((startsGB_cons_iff c rest).mp hx) hGB
      rw [hsGB]
      constructor
      · intro h
        refine Or.inr ?_
        intro i hm
        cases i with
        | zero =>
          rw [show markerAt (c :: rest) 0 = startsGB (c :: rest) from rfl,
            hsGB] at hm
          exact absurd hm (by simp)
        | succ j =>
          have hj := h j (by rw [← markerAt_succ c rest j]; exact hm)
          rw [List.take_succ_cons, List.reverse_cons]
          exact hj
      · intro h
        rcases h with h | h
        · exact absurd h (by simp)
        · intro j hm
          have hj := h (j + 1) (by rw [markerAt_succ]; exact hm)
          rw [List.take_succ_cons, List.reverse_cons] at hj
          exact hj

/-- C5, counterexample to the original claim: in `"GB 4GB"` the marker
occurrence at index 4 is immediately preceded by the digit 4, yet the
extractor returns "not found", because the occurrence at index 0 makes
`find` return 0 and the loop break at once. -/
theorem claim_C5_counterexample :
    parse_module_size "GB 4GB".toList = .ok none
    ∧ markerAt "GB 4GB".toList 4 = true
    ∧ candidateAt (("GB 4GB".toList.take 4).reverse) = some 4 := by decide

/-- C1 (amended): when the first two candidates `a ≠ b` are both positive,
the token is `(max/min, min)` with truncating division, the multiplier
satisfies the division inequalities, candidates beyond the first two are
ignored (any fragment with the same first two candidates parses the same),
and the result is unchanged when the whitespace run between a digit and the
following `GB` marker is replaced by any other whitespace run.  The original
claim omitted positivity: when `min a b = 0` the code raises
`ZeroDivisionError` and returns no token. -/
theorem claim_C1_two_candidate_ratio (s : Str) (a b : Nat) (t : List Nat)
    (h : moduleSizes s = a :: b :: t) (hab : a ≠ b) (hmin : 0 < min a b)
    (u w w' r : Str) (hu : u ≠ [])
    (hd : pyIsDigit (u.getLast hu) = true)
    (hw : ∀ c ∈ w, pyIsSpace c = true) (hw' : ∀ c ∈ w', pyIsSpace c = true) :
    parse_module_size s = .ok (some (.pair (max a b / min a b) (min a b)))
    ∧ (max a b / min a b) * min a b ≤ max a b
    ∧ max a b < (max a b / min a b + 1) * min a b
    ∧ (∀ s2 t2, moduleSizes s2 = a :: b :: t2 →
        parse_module_size s2 = parse_module_size s)
    ∧ parse_module_size (u ++ w ++ 'G' :: 'B' :: r) =
        parse_module_size (u ++ w' ++ 'G' :: 'B' :: r) := by
  have hmain : parse_module_size s =
      .ok (some (.pair (max a b / min a b) (min a b))) := by
    rw [parse_module_size_two h, if_neg hab,
      if_neg (Nat.pos_iff_ne_zero.mp hmin)]
  refine ⟨hmain, Nat.div_mul_le_self _ _, ?_, ?_, ?_⟩
  · have h1 := Nat.div_add_mod (max a b) (min a b)
    have h2 : max a b % min a b < min a b := Nat.mod_lt _ hmin
    rw [Nat.add_mul, Nat.one_mul]
    rw [Nat.mul_comm (min a b)] at h1
    omega
  · intro s2 t2 h2
    rw [parse_module_size_two h2, hmain, if_neg hab,
      if_neg (Nat.pos_iff_ne_zero.mp hmin)]
  · unfold parse_module_size
    rw [moduleSizes_ws_insert hu hw hw']

theorem claim_C1_witness :
    parse_module_size "16GB (2 x 8GB)".toList = .ok (some (.pair 2 8))
    ∧ parse_module_size (['4'] ++ [' '] ++ 'G' :: 'B' :: []) =
        parse_module_size (['4'] ++ [' ', ' '] ++ 'G' :: 'B' :: []) := by
  have h := claim_C1_two_candidate_ratio "16GB (2 x 8GB)".toList 16 8 []
    (by decide) (by decide) (by decide) ['4'] [' '] [' ', ' '] []
    (by decide) (by decide) (by decide) (by decide)
  exact ⟨h.1, h.2.2.2.2⟩

/-- C1, counterexample to the original claim: `"0GB 7GB"` produces the two
unequal candidates 0 and 7, but instead of returning a `(multiplier,
unitSize)` token the code raises `ZeroDivisionError` on `7 // 0`. -/
theorem claim_C1_counterexample :
    moduleSizes "0GB 7GB".toList = [0, 7]
    ∧ parse_module_size "0GB 7GB".toList = .error .zeroDivisionError := by
  decide

/-- C4 (amended): on every input whose extracted candidates are all
positive, the Capacity Extractor terminates normally and returns "not
found" or a token with strictly positive components.  The original
unconditional claim fails: a zero candidate either surfaces as the
non-positive token 0 (`"0GB"`) or, facing a second unequal candidate,
raises `ZeroDivisionError` (`"0GB 5GB"`). -/
theorem claim_C4_safety (s : Str) (h : ∀ n ∈ moduleSizes s, 0 < n) :
    ∃ r, parse_module_size s = .ok r ∧
      (r = none ∨ ∃ tok, r = some tok ∧ tok.isPos = true) := by
  cases hm : moduleSizes s with
  | nil => exact ⟨none, parse_module_size_nil hm, Or.inl rfl⟩
  | cons a t =>
    have ha : 0 < a := h a (hm ▸ List.mem_cons_self a t)
    cases t with
    | nil =>
      refine ⟨some (.single a), parse_module_size_one hm, Or.inr ⟨_, rfl, ?_⟩⟩
      simpa [ModuleSize.isPos] using ha
    | cons b t2 =>
      have hb : 0 < b := h b (hm ▸ List.mem_cons_of_mem a (List.mem_cons_self b t2))
      by_cases hab : a = b
      · refine ⟨some (.single a), ?_, Or.inr ⟨_, rfl, ?_⟩⟩
        · rw [parse_module_size_two hm, if_pos hab]
        · simpa [ModuleSize.isPos] using ha
      · have hmin : 0 < min a b := lt_min ha hb
        refine ⟨some (.pair (max a b / min a b) (min a b)), ?_,
          Or.inr ⟨_, rfl, ?_⟩⟩
        · rw [parse_module_size_two hm, if_neg hab,
            if_neg (Nat.pos_iff_ne_zero.mp hmin)]
        · have h1 : 1 ≤ max a b / min a b :=
            (Nat.one_le_div_iff hmin).mpr min_le_max
          simp only [ModuleSize.isPos, Bool.and_eq_true, decide_eq_true_eq]
          omega

theorem claim_C4_witness :
    (∀ n ∈ moduleSizes "Foobar 8GB (2 x 4GB)".toList, 0 < n) ∧
    ∃ r, parse_module_size "Foobar 8GB (2 x 4GB)".toList = .ok r ∧
      (r = none ∨ ∃ tok, r = some tok ∧ tok.isPos = true) :=
  ⟨by decide, claim_C4_safety _ (by decide)⟩

/-- C4, counterexample to the original claim: the extractor is not total on
adversarial text — `"0GB 5GB"` raises `ZeroDivisionError`, and `"0GB"`
returns a token whose component is 0, not positive. -/
theorem claim_C4_counterexample :
    parse_module_size "0GB 5GB".toList = .error .zeroDivisionError
    ∧ parse_module_size "0GB".toList = .ok (some (.single 0))
    ∧ ModuleSize.isPos (.single 0) = false := by decide

/-! ### Round trip: composing and re-parsing the shorthand -/

theorem price_notin {price : Str}
    (hp : ∀ c ∈ price, pyIsDigit c = true ∨ c = '.') {y : Char}
    (hy1 : pyIsDigit y = false) (hy2 : y ≠ '.') : y ∉ price := by
  intro hmem
  rcases hp y hmem with h | h
  · rw [hy1] at h; exact Bool.noConfusion h
  · exact hy2 h

theorem decParse_nil : decParse [] = none := rfl

theorem natRender_len_pos (n : Nat) : 0 < (natRender n).length :=
  List.length_pos.mpr (natRender_ne_nil n)

theorem parse_compose_pair (count size : Nat) (price brand : Str) (dv : DecV)
    (hp : ∀ c ∈ price, pyIsDigit c = true ∨ c = '.')
    (hpd : decParse price = some dv) (hb : brand ≠ []) :
    parse_description (composeDesc (.pair count size) price brand) =
      .ok ((count : Int), (size : Int), dv, brand) := by
  have hpne : price ≠ [] := by
    intro h; rw [h, decParse_nil] at hpd; exact Option.noConfusion hpd
  set R := natRender count with hR
  set S := natRender size with hS
  have hxR : 'x' ∉ R := notin_natRender (by decide) count
  have hxS : 'x' ∉ S := notin_natRender (by decide) size
  have hGR : 'G' ∉ R := notin_natRender (by decide) count
  have hGS : 'G' ∉ S := notin_natRender (by decide) size
  have hspR : ' ' ∉ R := notin_natRender (by decide) count
  have hspS : ' ' ∉ S := notin_natRender (by decide) size
  have hGp : 'G' ∉ price := price_notin hp (by decide) (by decide)
  have hspp : ' ' ∉ price := price_notin hp (by decide) (by decide)
  -- the composed string, in the association produced by the definitions
  have hdesc : composeDesc (.pair count size) price brand =
      (R ++ 'x' :: S) ++ (gbAt ++ (price ++ (' ' :: brand))) := by
    simp [composeDesc, renderModuleSize, hR, hS]
  rw [hdesc]
  set desc := (R ++ 'x' :: S) ++ (gbAt ++ (price ++ (' ' :: brand))) with hd
  -- positions of 'x', 'GB@$' and ' '
  have hx : findIn ['x'] desc = some R.length := by
    rw [hd, List.append_assoc, List.cons_append,
      findIn_append_notin 'x' [] R _ hxR,
      findIn_of_pfx (by simp [strHasPfx] :
        strHasPfx ['x'] ('x' :: (S ++ (gbAt ++ (price ++ (' ' :: brand))))) = true)]
    simp
  have hgb : findIn gbAt desc = some (R ++ 'x' :: S).length := by
    rw [hd, show gbAt = 'G' :: ['B', '@', '$'] from rfl,
      findIn_append_notin 'G' ['B', '@', '$'] (R ++ 'x' :: S) _
        (notin_append hGR (by
          intro hmem
          rcases List.mem_cons.mp hmem with h | h
          · exact absurd h.symm (by decide)
          · exact hGS h)),
      findIn_of_pfx (strHasPfx_self_append ('G' :: ['B', '@', '$']) _)]
    simp
  have hreassoc : desc = ((R ++ 'x' :: S) ++ (gbAt ++ price)) ++ (' ' :: brand) := by
    rw [hd]
    simp [List.append_assoc]
  have hsp : findIn [' '] desc = some ((R ++ 'x' :: S) ++ (gbAt ++ price)).length := by
    rw [hreassoc,
      findIn_append_notin ' ' [] ((R ++ 'x' :: S) ++ (gbAt ++ price)) _
        (notin_append (notin_append hspR (by
          intro hmem
          rcases List.mem_cons.mp hmem with h | h
          · exact absurd h.symm (by decide)
          · exact hspS h))
          (notin_append (by decide) hspp)),
      findIn_of_pfx (by simp [strHasPfx] :
        strHasPfx [' '] (' ' :: brand) = true)]
    simp
  -- lengths
  have hlR : 0 < R.length := natRender_len_pos count
  have hlS : 0 < S.length := natRender_len_pos size
  have hlP : 0 < price.length := List.length_pos.mpr hpne
  have hlB : 0 < brand.length := List.length_pos.mpr hb
  have hlen : ¬ desc.length < 10 := by
    rw [hd]
    simp only [List.length_append, List.length_cons,
      show gbAt.length = 4 from rfl]
    omega
  -- the count
  have hcount : countOf desc = .ok ((count : Int)) := by
    unfold countOf
    rw [hx]
    simp only []
    rw [if_neg (by omega : ¬ R.length = 0)]
    rw [show desc.take R.length = R from by
      rw [hd, List.append_assoc, List.cons_append]
      exact take_exact rfl]
    rw [hR, intParse_natRender]
  -- the size slice
  have hxst : xStartOf desc = R.length + 1 := by
    unfold xStartOf
    rw [hx]
  have htakeK : desc.take (R ++ 'x' :: S).length = R ++ 'x' :: S := by
    rw [hd]; exact take_exact rfl
  have hdropS : (R ++ 'x' :: S).drop (R.length + 1) = S := by
    rw [drop_exact_add rfl]
    rfl
  -- the price slice
  have htakeJ : desc.take ((R ++ 'x' :: S) ++ (gbAt ++ price)).length =
      (R ++ 'x' :: S) ++ (gbAt ++ price) := by
    rw [hreassoc]; exact take_exact rfl
  have hdropP : ((R ++ 'x' :: S) ++ (gbAt ++ price)).drop
      ((R ++ 'x' :: S).length + 4) = price := by
    rw [drop_exact_add rfl]
    exact drop_exact rfl
  -- the brand
  have hbrand : desc.drop (((R ++ 'x' :: S) ++ (gbAt ++ price)).length + 1) =
      brand := by
    rw [hreassoc, drop_exact_add rfl]
    rfl
  -- assemble
  unfold parse_description
  rw [if_neg hlen]
  simp only [hcount]
  simp only [hsp]
  rw [if_neg (by
    simp only [List.length_append]
    omega : ¬ ((R ++ 'x' :: S) ++ (gbAt ++ price)).length = 0)]
  simp only [hgb]
  rw [if_neg (by
    simp only [List.length_append, List.length_cons]
    omega : ¬ (R ++ 'x' :: S).length = 0)]
  rw [htakeK, hxst, hdropS, hS, intParse_natRender]
  simp only []
  rw [htakeJ, hdropP, hpd]
  simp only []
  rw [hbrand]

theorem parse_compose_single (size : Nat) (price brand : Str) (dv : DecV)
    (hp : ∀ c ∈ price, pyIsDigit c = true ∨ c = '.')
    (hpd : decParse price = some dv) (hb : brand ≠ [])
    (hlen : 10 ≤ (composeDesc (.single size) price brand).length)
    (hxb : 'x' ∉ brand) :
    parse_description (composeDesc (.single size) price brand) =
      .ok (1, (size : Int), dv, brand) := by
  have hpne : price ≠ [] := by
    intro h; rw [h, decParse_nil] at hpd; exact Option.noConfusion hpd
  set S := natRender size with hS
  have hxS : 'x' ∉ S := notin_natRender (by decide) size
  have hGS : 'G' ∉ S := notin_natRender (by decide) size
  have hspS : ' ' ∉ S := notin_natRender (by decide) size
  have hxp : 'x' ∉ price := price_notin hp (by decide) (by decide)
  have hGp : 'G' ∉ price := price_notin hp (by decide) (by decide)
  have hspp : ' ' ∉ price := price_notin hp (by decide) (by decide)
  have hdesc : composeDesc (.single size) price brand =
      S ++ (gbAt ++ (price ++ (' ' :: brand))) := by
    simp [composeDesc, renderModuleSize, hS]
  rw [hdesc] at hlen ⊢
  set desc := S ++ (gbAt ++ (price ++ (' ' :: brand))) with hd
  have hx : findIn ['x'] desc = none := by
    apply findIn_head_notin
    rw [hd]
    refine notin_append hxS (notin_append (by decide) (notin_append hxp ?_))
    intro hmem
    rcases List.mem_cons.mp hmem with h | h
    · exact absurd h.symm (by decide)
    · exact hxb h
  have hgb : findIn gbAt desc = some S.length := by
    rw [hd, show gbAt = 'G' :: ['B', '@', '$'] from rfl,
      findIn_append_notin 'G' ['B', '@', '$'] S _ hGS,
      findIn_of_pfx (strHasPfx_self_append ('G' :: ['B', '@', '$']) _)]
    simp
  have hreassoc : desc = (S ++ (gbAt ++ price)) ++ (' ' :: brand) := by
    rw [hd]; simp [List.append_assoc]
  have hsp : findIn [' '] desc = some (S ++ (gbAt ++ price)).length := by
    rw [hreassoc,
      findIn_append_notin ' ' [] (S ++ (gbAt ++ price)) _
        (notin_append hspS (notin_append (by decide) hspp)),
      findIn_of_pfx (by simp [strHasPfx] : strHasPfx [' '] (' ' :: brand) = true)]
    simp
  have hxst : xStartOf desc = 0 := by
    unfold xStartOf
    rw [hx]
  have htakeK : desc.take S.length = S := by
    rw [hd]; exact take_exact rfl
  have htakeJ : desc.take (S ++ (gbAt ++ price)).length =
      S ++ (gbAt ++ price) := by
    rw [hreassoc]; exact take_exact rfl
  have hdropP : (S ++ (gbAt ++ price)).drop (S.length + 4) = price := by
    rw [drop_exact_add rfl]
    exact drop_exact rfl
  have hbrand : desc.drop ((S ++ (gbAt ++ price)).length + 1) = brand := by
    rw [hreassoc, drop_exact_add rfl]
    rfl
  have hcount : countOf desc = .ok 1 := by
    unfold countOf
    rw [hx]
  unfold parse_description
  rw [if_neg (by omega)]
  simp only [hcount]
  simp only [hsp]
  rw [if_neg (by
    simp only [List.length_append]
    have := List.length_pos.mpr hpne
    omega : ¬ (S ++ (gbAt ++ price)).length = 0)]
  simp only [hgb]
  rw [if_neg (by
    have := natRender_len_pos size
    rw [← hS] at this
    omega : ¬ S.length = 0)]
  rw [htakeK, hxst, List.drop_zero, hS, intParse_natRender]
  simp only []
  rw [htakeJ, hdropP, hpd]
  simp only []
  rw [hbrand]

/-- C2 (amended): re-parsing a composed shorthand recovers the count, size,
price and brand exactly — for the two-value form `<count>x<size>GB@$<price>
<brand>` unconditionally, and for the single-value form `<size>GB@$<price>
<brand>` provided the composed string reaches the 10-character minimum and
the brand contains no `x` (the parser takes the first `x` anywhere in the
string as the count separator).  The original unconditional claim fails on
both counts: a short composition is rejected as malformed, and an `x`
inside the brand of a single-value composition makes `int()` raise. -/
theorem claim_C2_roundtrip (count size : Nat) (price brand : Str) (dv : DecV)
    (hc : 0 < count) (hs : 0 < size)
    (hp : ∀ c ∈ price, pyIsDigit c = true ∨ c = '.')
    (hpd : decParse price = some dv) (hb : brand ≠ []) :
    (parse_description (composeDesc (.pair count size) price brand) =
      .ok ((count : Int), (size : Int), dv, brand))
    ∧ (10 ≤ (composeDesc (.single size) price brand).length → 'x' ∉ brand →
        parse_description (composeDesc (.single size) price brand) =
          .ok (1, (size : Int), dv, brand)) :=
  ⟨parse_compose_pair count size price brand dv hp hpd hb,
   fun hlen hxb => parse_compose_single size price brand dv hp hpd hb hlen hxb⟩

theorem claim_C2_witness :
    parse_description (composeDesc (.pair 2 8) "28.99".toList "Foobar".toList) =
      .ok (2, 8, ⟨2899, 2⟩, "Foobar".toList)
    ∧ parse_description (composeDesc (.single 8) "18.99".toList "Foobar".toList) =
      .ok (1, 8, ⟨1899, 2⟩, "Foobar".toList) := by
  have h1 := claim_C2_roundtrip 2 8 "28.99".toList "Foobar".toList ⟨2899, 2⟩
    (by decide) (by decide) (by decide) (by decide) (by decide)
  have h2 := claim_C2_roundtrip 2 8 "18.99".toList "Foobar".toList ⟨1899, 2⟩
    (by decide) (by decide) (by decide) (by decide) (by decide)
  exact ⟨h1.1, h2.2 (by decide) (by decide)⟩

/-- C2, counterexample to the original claim: with unit size 4, exact price
1 and brand "ab" the single-value composition is the 9-character
`"4GB@$1 ab"`, which the parser rejects (`ValueError`) instead of
recovering `(4, 1, "ab")`; and with price 14.99 and brand "xyz" the
composition `"4GB@$14.99 xyz"` also raises, because the `x` of the brand is
taken as the count separator and `int("4GB@$14.99 ")` fails. -/
theorem claim_C2_counterexample :
    composeDesc (.single 4) "1".toList "ab".toList = "4GB@$1 ab".toList
    ∧ parse_description (composeDesc (.single 4) "1".toList "ab".toList) =
        .error .valueError
    ∧ composeDesc (.single 4) "14.99".toList "xyz".toList =
        "4GB@$14.99 xyz".toList
    ∧ parse_description (composeDesc (.single 4) "14.99".toList "xyz".toList) =
        .error .valueError := by decide

/-! ### Claims about the Shorthand Parser edge behaviour -/

theorem countOf_one {s : Str}
    (hx : findIn ['x'] s = none ∨ findIn ['x'] s = some 0) :
    countOf s = .ok 1 := by
  unfold countOf
  rcases hx with hx | hx
  · rw [hx]
  · rw [hx]; rfl

theorem parse_description_count {s : Str} {c sz : Int} {p : DecV} {b : Str}
    (h : parse_description s = .ok (c, sz, p, b)) : countOf s = .ok c := by
  unfold parse_description at h
  by_cases hlen : s.length < 10
  · rw [if_pos hlen] at h
    exact absurd h (by simp)
  · rw [if_neg hlen] at h
    split at h
    next e heq => exact absurd h (by simp)
    next cnt heq =>
      rw [heq]
      split at h
      next hspEq =>
        simp only [Except.ok.injEq, Prod.mk.injEq] at h
        rw [h.1]
      next j hspEq =>
        split at h
        next hj =>
          simp only [Except.ok.injEq, Prod.mk.injEq] at h
          rw [h.1]
        next hj =>
          split at h
          next hgb =>
            simp only [Except.ok.injEq, Prod.mk.injEq] at h
            rw [h.1]
          next k hgb =>
            split at h
            next hk =>
              simp only [Except.ok.injEq, Prod.mk.injEq] at h
              rw [h.1]
            next hk =>
              split at h
              next hint => exact absurd h (by simp)
              next sz2 hint =>
                split at h
                next hdec => exact absurd h (by simp)
                next pv hdec =>
                  simp only [Except.ok.injEq, Prod.mk.injEq] at h
                  rw [h.1]

/-- C8 (amended): when the first occurrence of `x` in the whole description
is absent or at index 0, any successful parse returns module count 1 (the
parse may still fail on the size or price fields).  The original claim —
conditioned only on no `x` before the unit marker, and promising success —
fails, because the parser uses the first `x` anywhere in the string, e.g.
one inside the brand, as the count separator. -/
theorem claim_C8_default_count (s : Str) (hlen : 10 ≤ s.length)
    (hx : findIn ['x'] s = none ∨ findIn ['x'] s = some 0)
    (c sz : Int) (p : DecV) (b : Str)
    (h : parse_description s = .ok (c, sz, p, b)) : c = 1 := by
  have hc := parse_description_count h
  rw [countOf_one hx] at hc
  simp only [Except.ok.injEq] at hc
  exact hc.symm

theorem claim_C8_witness : (1 : Int) = 1 :=
  claim_C8_default_count "8GB@$18.99 Foo".toList (by decide)
    (Or.inl (by decide)) 1 8 ⟨1899, 2⟩ "Foo".toList (by decide)

/-- C8, counterexample to the original claim: in `"4GB@$14.99 xyz"` the
unit marker `GB@$` is at index 1 and no `x` precedes it, yet the parser
raises `ValueError` (from `int("4GB@$14.99 ")`) instead of returning module
count 1, because the first `x` of the string sits inside the brand. -/
theorem claim_C8_counterexample :
    findIn gbAt "4GB@$14.99 xyz".toList = some 1
    ∧ findIn ['x'] "4GB@$14.99 xyz".toList = some 11
    ∧ parse_description "4GB@$14.99 xyz".toList = .error .valueError := by
  decide

theorem procEntries_str (d : Nat) (t st : Str) (acc : List (Nat × List Item))
    (s : Str) (rest : List Slot) :
    procEntries d t st acc (.str s :: rest) =
      match parse_description s with
      | .error e => .error e
      | .ok (count, size, price, brand) =>
        if 0 < size then
          match Item.init d t st count size price brand with
          | .ok it => procEntries d t st (appendAt (touchKey acc d) d it) rest
          | .error .valueError => procEntries d t st (touchKey acc d) rest
          | .error e => .error e
        else procEntries d t st acc rest := rfl

/-- C9 (amended): an accepted description with no space separator (so no
trailing remainder) and no `x` at a positive index parses without raising
to the sentinel `(1, 0, Decimal(0), "")`, and the document-loading loop
discards that zero-size result without constructing a record.  The original
claim quantified over all such strings without the `x` restriction and
fails, e.g. on `"4GB@$14.99x"`, where the prefix before the brand-less
trailing `x` is fed to `int()` and raises. -/
theorem claim_C9_sentinel (s : Str) (hlen : 10 ≤ s.length)
    (hsp : findIn [' '] s = none ∨ findIn [' '] s = some 0)
    (hx : findIn ['x'] s = none ∨ findIn ['x'] s = some 0) :
    parse_description s = .ok (1, 0, decZero, [])
    ∧ ∀ (d : Nat) (t st : Str) (acc : List (Nat × List Item))
        (rest : List Slot),
        procEntries d t st acc (.str s :: rest) = procEntries d t st acc rest := by
  have hmain : parse_description s = .ok (1, 0, decZero, []) := by
    unfold parse_description
    rw [if_neg (by omega)]
    simp only [countOf_one hx]
    rcases hsp with hsp | hsp
    · rw [hsp]
    · rw [hsp]; rfl
  refine ⟨hmain, ?_⟩
  intro d t st acc rest
  rw [procEntries_str, hmain]
  simp [show ¬ ((0 : Int) < 0) from by omega]

theorem claim_C9_witness :
    parse_description "4GB@$14.99".toList = .ok (1, 0, decZero, [])
    ∧ procEntries 0 "desktop".toList "store".toList []
        [.str "4GB@$14.99".toList] =
      procEntries 0 "desktop".toList "store".toList [] [] := by
  have h := claim_C9_sentinel "4GB@$14.99".toList (by decide)
    (Or.inl (by decide)) (Or.inl (by decide))
  exact ⟨h.1, h.2 0 "desktop".toList "store".toList [] []⟩

/-- C9, counterexample to the original claim: `"4GB@$14.99x"` meets the
minimum length and has no whitespace-delimited remainder, yet the parser
raises `ValueError` instead of returning the zero/empty sentinel. -/
theorem claim_C9_counterexample :
    "4GB@$14.99x".toList.length = 11
    ∧ findIn [' '] "4GB@$14.99x".toList = none
    ∧ parse_description "4GB@$14.99x".toList = .error .valueError := by decide

/-! ### Claims about the Record Validator and the document loader -/

/-- C6 (amended): on successful construction the stored `dimm_type`,
`store` and `brand` are the trimmed lower-cased forms of the supplied
strings, but the minimum-length thresholds (6, 5, 3) are enforced on the
raw, untrimmed strings.  The original claim — that the stored strings still
meet the thresholds after trimming, and that whitespace-padded strings are
rejected — fails: padding is accepted and the stored string may be shorter
than the threshold. -/
theorem claim_C6_item_storage (d : Nat) (t st : Str) (c sz : Int) (p : DecV)
    (b : Str) (it : Item) (h : Item.init d t st c sz p b = .ok it) :
    it.dimm_type = pyLower (pyStrip t)
    ∧ it.store = pyLower (pyStrip st)
    ∧ it.brand = pyLower (pyStrip b)
    ∧ 6 ≤ t.length ∧ 5 ≤ st.length ∧ 3 ≤ b.length
    ∧ 0 < c ∧ 0 < sz
    ∧ it.date = d ∧ it.count = c ∧ it.size = sz ∧ it.price = p := by
  unfold Item.init at h
  split_ifs at h with h1 h2 h3 h4 h5
  simp only [Except.ok.injEq] at h
  subst h
  exact ⟨rfl, rfl, rfl, by omega, by omega, by omega, by omega, by omega,
    rfl, rfl, rfl, rfl⟩

theorem claim_C6_witness :
    (⟨7, "desktop".toList, "store".toList, 2, 8, ⟨2899, 2⟩,
      "foobar".toList⟩ : Item).dimm_type = pyLower (pyStrip " Desktop".toList) :=
  (claim_C6_item_storage 7 " Desktop".toList "store".toList 2 8 ⟨2899, 2⟩
    "Foobar".toList
    ⟨7, "desktop".toList, "store".toList, 2, 8, ⟨2899, 2⟩, "foobar".toList⟩
    (by decide)).1

/-- C6, counterexample to the original claim: the supplied `dimm_type`
`"  ddr4"` reaches length 6 only through its whitespace padding, yet the
construction succeeds and stores the 4-character `"ddr4"`, below the
6-character threshold — the validator checks the length before trimming,
not after. -/
theorem claim_C6_counterexample :
    Item.init 0 "  ddr4".toList "store".toList 1 2 decZero "abc".toList =
      .ok ⟨0, "ddr4".toList, "store".toList, 1, 2, decZero, "abc".toList⟩
    ∧ ("ddr4".toList).length < 6 := by decide

/-- C3 (amended): in `_parse_document`, non-date keys and non-mapping
levels are skipped (they do not halt the call); a single-store document
reduces to the entry loop; an entry whose `Item` construction fails with
`ValueError` is reported and skipped — though the defaultdict subscript
`result[date]` has already run by then, so the skipped entry still leaves
the date key bound to an empty list when it was absent (a document with one
such entry yields `{date: []}`); but an entry on which `_parse_description`
itself raises — too short, bad count/size literal, bad price — aborts the
whole call, as does a non-string entry (`TypeError`).  The original claim —
that a malformed string entry never aborts the batch and that non-mapping
levels halt the call — has both directions wrong. -/
theorem claim_C3_document_policy :
    (∀ (v : DateVal) (rest : List (DocKey × DateVal)),
      parse_document (.dict ((.notDate, v) :: rest)) =
        parse_document (.dict rest))
    ∧ (∀ (d : Nat) (rest : List (DocKey × DateVal)),
      parse_document (.dict ((.date d, .notDict) :: rest)) =
        parse_document (.dict rest))
    ∧ (∀ (d : Nat) (t : Str) (acc : List (Nat × List Item))
        (rest : List (Str × TypeVal)),
      procTypes d acc ((t, .notDict) :: rest) = procTypes d acc rest)
    ∧ (∀ (d : Nat) (t st : Str) (acc : List (Nat × List Item))
        (rest : List (Str × StoreVal)),
      procStores d t acc ((st, .notList) :: rest) = procStores d t acc rest)
    ∧ (∀ (d : Nat) (t st : Str) (entries : List Slot),
      parse_document (.dict [(.date d, .dict [(t, .dict [(st, .list entries)])])]) =
        procEntries d t st [] entries)
    ∧ (∀ (d : Nat) (t st : Str) (acc : List (Nat × List Item)) (s : Str)
        (rest : List Slot) (c sz : Int) (p : DecV) (b : Str),
        parse_description s = .ok (c, sz, p, b) → 0 < sz →
        Item.init d t st c sz p b = .error .valueError →
        procEntries d t st acc (.str s :: rest) =
          procEntries d t st (touchKey acc d) rest)
    ∧ (∀ (d : Nat) (t st : Str) (s : Str) (c sz : Int) (p : DecV) (b : Str),
        parse_description s = .ok (c, sz, p, b) → 0 < sz →
        Item.init d t st c sz p b = .error .valueError →
        parse_document (.dict [(.date d, .dict [(t, .dict
          [(st, .list [.str s])])])]) = .ok [(d, [])])
    ∧ (∀ (d : Nat) (t st : Str) (acc : List (Nat × List Item)) (s : Str)
        (rest : List Slot) (e : PyErr), parse_description s = .error e →
        procEntries d t st acc (.str s :: rest) = .error e)
    ∧ (∀ (d : Nat) (t st : Str) (acc : List (Nat × List Item))
        (rest : List Slot),
        procEntries d t st acc (.nonStr :: rest) = .error .typeError) := by
  have h5 : ∀ (d : Nat) (t st : Str) (entries : List Slot),
      parse_document (.dict [(.date d, .dict [(t, .dict [(st, .list entries)])])]) =
        procEntries d t st [] entries := by
    intro d t st entries
    show procDates [] [(.date d, .dict [(t, .dict [(st, .list entries)])])] = _
    cases hE : procEntries d t st [] entries with
    | error e => simp [procDates, procTypes, procStores, hE]
    | ok acc2 => simp [procDates, procTypes, procStores, hE]
  have h6 : ∀ (d : Nat) (t st : Str) (acc : List (Nat × List Item)) (s : Str)
      (rest : List Slot) (c sz : Int) (p : DecV) (b : Str),
      parse_description s = .ok (c, sz, p, b) → 0 < sz →
      Item.init d t st c sz p b = .error .valueError →
      procEntries d t st acc (.str s :: rest) =
        procEntries d t st (touchKey acc d) rest := by
    intro d t st acc s rest c sz p b h1 h2 h3
    rw [procEntries_str, h1]
    simp [h2, h3]
  refine ⟨fun v rest => rfl, fun d rest => rfl, fun d t acc rest => rfl,
    fun d t st acc rest => rfl, h5, h6, ?_, ?_, fun d t st acc rest => rfl⟩
  · intro d t st s c sz p b h1 h2 h3
    rw [h5 d t st [.str s], h6 d t st [] s [] c sz p b h1 h2 h3]
    rfl
  · intro d t st acc s rest e h1
    rw [procEntries_str, h1]

theorem claim_C3_witness :
    procEntries 0 "desktop".toList "store".toList []
      [.str "2x8GB@$28.99 ab".toList] =
    procEntries 0 "desktop".toList "store".toList (touchKey [] 0) [] :=
  claim_C3_document_policy.2.2.2.2.2.1 0 "desktop".toList "store".toList []
    "2x8GB@$28.99 ab".toList [] 2 8 ⟨2899, 2⟩ "ab".toList
    (by decide) (by decide) (by decide)

/-- C3, counterexample to the original claim: the malformed entry `"bad"`
(shorter than the 10-character minimum) makes `_parse_description` raise
`ValueError` outside any handler, aborting the whole call and discarding
the valid record already parsed from the same list; the same document
without the malformed entry loads fine. -/
theorem claim_C3_counterexample :
    parse_document (.dict [(.date 0, .dict [("desktop".toList, .dict
        [("store".toList, .list [.str "2x8GB@$28.99 Foobar".toList,
          .str "bad".toList])])])]) = .error .valueError
    ∧ parse_document (.dict [(.date 0, .dict [("desktop".toList, .dict
        [("store".toList, .list [.str "2x8GB@$28.99 Foobar".toList])])])]) =
      .ok [(0, [⟨0, "desktop".toList, "store".toList, 2, 8, ⟨2899, 2⟩,
        "foobar".toList⟩])] := by decide

/-- C10 (confirmed): a well-typed Newegg source with a candidate title (it
begins with the `&#36;` entity and contains a parsable capacity) whose text
after the `" - "` separator contains no whitespace makes the brand scan
`while not title[brand_end].isspace()` walk past the end of the title and
raise an uncaught `IndexError`. -/
theorem claim_C10_brand_scan_indexerror :
    parse_newegg "<rss><title>&#36;9.99 - Foobar4GB</title></rss>".toList =
      .error .indexError := by decide

/-! ### Claims about the Source Adapters and the final sort -/

theorem decLt_iff_val (a b : DecV) : decLt a b = true ↔ a.val < b.val := by
  unfold decLt DecV.val
  rw [decide_eq_true_eq]
  rw [div_lt_div_iff₀ (by positivity) (by positivity)]
  constructor
  · intro h; exact_mod_cast h
  · intro h; exact_mod_cast h

theorem strLe_total : ∀ a b : Str, strLe a b = true ∨ strLe b a = true := by
  intro a
  induction a with
  | nil => intro b; left; rfl
  | cons x as ih =>
    intro b
    cases b with
    | nil => right; rfl
    | cons y bs =>
      unfold strLe
      by_cases h1 : x.toNat < y.toNat
      · left; rw [if_pos h1]
      · by_cases h2 : y.toNat < x.toNat
        · right; rw [if_pos h2]
        · rcases ih bs with h | h
          · left; rw [if_neg h1, if_neg h2]; exact h
          · right; rw [if_neg h2, if_neg h1]; exact h

theorem strLe_cons_le {x y : Char} {as bs : Str}
    (h : strLe (x :: as) (y :: bs) = true) : x.toNat ≤ y.toNat := by
  unfold strLe at h
  by_cases h1 : x.toNat < y.toNat
  · omega
  · rw [if_neg h1] at h
    by_cases h2 : y.toNat < x.toNat
    · rw [if_pos h2] at h; exact Bool.noConfusion h
    · omega

theorem strLe_cons_tail {x y : Char} {as bs : Str}
    (h : strLe (x :: as) (y :: bs) = true) (hxy : x.toNat = y.toNat) :
    strLe as bs = true := by
  unfold strLe at h
  rw [if_neg (by omega), if_neg (by omega)] at h
  exact h

theorem strLe_trans : ∀ a b c : Str,
    strLe a b = true → strLe b c = true → strLe a c = true := by
  intro a
  induction a with
  | nil => intro b c _ _; rfl
  | cons x as ih =>
    intro b c hab hbc
    cases b with
    | nil => exact absurd hab (by simp [strLe])
    | cons y bs =>
      cases c with
      | nil => exact absurd hbc (by simp [strLe])
      | cons z cs =>
        have hxy := strLe_cons_le hab
        have hyz := strLe_cons_le hbc
        unfold strLe
        by_cases hxz : x.toNat < z.toNat
        · rw [if_pos hxz]
        · rw [if_neg hxz]
          rw [if_neg (by omega : ¬ z.toNat < x.toNat)]
          exact ih bs cs (strLe_cons_tail hab (by omega))
            (strLe_cons_tail hbc (by omega))

theorem tupleLe_total : ∀ a b : DecV × Str,
    tupleLe a b = true ∨ tupleLe b a = true := by
  intro a b
  unfold tupleLe
  by_cases h1 : decLt a.1 b.1 = true
  · left; rw [if_pos h1]
  · by_cases h2 : decLt b.1 a.1 = true
    · right; rw [if_pos h2]
    · rcases strLe_total a.2 b.2 with h | h
      · left; rw [if_neg h1, if_neg h2]; exact h
      · right; rw [if_neg h2, if_neg h1]; exact h

theorem tupleLe_trans : ∀ a b c : DecV × Str,
    tupleLe a b = true → tupleLe b c = true → tupleLe a c = true := by
  intro a b c hab hbc
  unfold tupleLe at hab hbc ⊢
  by_cases h1 : decLt a.1 b.1 = true
  · have hv1 := (decLt_iff_val _ _).mp h1
    have hv2 : b.1.val ≤ c.1.val := by
      by_cases h2 : decLt b.1 c.1 = true
      · exact le_of_lt ((decLt_iff_val _ _).mp h2)
      · by_cases h3 : decLt c.1 b.1 = true
        · rw [if_neg h2, if_pos h3] at hbc; exact Bool.noConfusion hbc
        · exact le_of_not_lt (fun hh => h3 ((decLt_iff_val _ _).mpr hh))
    rw [if_pos ((decLt_iff_val _ _).mpr (lt_of_lt_of_le hv1 hv2))]
  · rw [if_neg h1] at hab
    by_cases h1' : decLt b.1 a.1 = true
    · rw [if_pos h1'] at hab; exact Bool.noConfusion hab
    · rw [if_neg h1'] at hab
      have hvab : a.1.val = b.1.val := le_antisymm
        (le_of_not_lt fun hh => h1' ((decLt_iff_val _ _).mpr hh))
        (le_of_not_lt fun hh => h1 ((decLt_iff_val _ _).mpr hh))
      by_cases h2 : decLt b.1 c.1 = true
      · rw [if_pos ((decLt_iff_val _ _).mpr
          (hvab ▸ (decLt_iff_val _ _).mp h2))]
      · rw [if_neg h2] at hbc
        by_cases h2' : decLt c.1 b.1 = true
        · rw [if_pos h2'] at hbc; exact Bool.noConfusion hbc
        · rw [if_neg h2'] at hbc
          have hvbc : b.1.val = c.1.val := le_antisymm
            (le_of_not_lt fun hh => h2' ((decLt_iff_val _ _).mpr hh))
            (le_of_not_lt fun hh => h2 ((decLt_iff_val _ _).mpr hh))
          have hvac : a.1.val = c.1.val := hvab.trans hvbc
          have hnac : ¬ decLt a.1 c.1 = true := fun hh => by
            have hv := (decLt_iff_val _ _).mp hh
            rw [hvac] at hv
            exact lt_irrefl _ hv
          have hnca : ¬ decLt c.1 a.1 = true := fun hh => by
            have hv := (decLt_iff_val _ _).mp hh
            rw [hvac] at hv
            exact lt_irrefl _ hv
          rw [if_neg hnac, if_neg hnca]
          exact strLe_trans _ _ _ hab hbc

/-- C7 (amended): whenever an adapter returns normally, its output is the
stable sort of the discovered `(price, description)` pairs under Python's
tuple order — ascending by numeric price, with numerically equal prices
ordered by code-point comparison of the description strings — and is in
particular a permutation of the discovered pairs that is sorted under that
order.  The original claim — price as the sole key with ties keeping
discovery order — fails, because `descriptions.sort()` sorts `(Decimal,
str)` tuples, so equal prices are tie-broken by the description string. -/
theorem claim_C7_sorted_by_tuple :
    (∀ (src : Str) (d : List (DecV × Str)), neweggPairs src = .ok d →
      parse_newegg src = .ok (pySort d)
      ∧ List.Pairwise rTuple (pySort d)
      ∧ (pySort d).Perm d)
    ∧ (∀ (ps : List PyProd) (d : List (DecV × Str)), microPairs ps = .ok d →
      parse_micro_center_products ps = .ok (pySort d)
      ∧ List.Pairwise rTuple (pySort d)
      ∧ (pySort d).Perm d) := by
  have htot : IsTotal (DecV × Str) rTuple := ⟨fun a b => tupleLe_total a b⟩
  have htrans : IsTrans (DecV × Str) rTuple :=
    ⟨fun a b c => tupleLe_trans a b c⟩
  have hsorted : ∀ l : List (DecV × Str), List.Pairwise rTuple (pySort l) :=
    fun l => @List.sorted_insertionSort _ rTuple _ htot htrans l
  have hperm : ∀ l : List (DecV × Str), (pySort l).Perm l :=
    fun l => List.perm_insertionSort rTuple l
  constructor
  · intro src d h
    refine ⟨?_, hsorted d, hperm d⟩
    unfold parse_newegg
    rw [h]
    rfl
  · intro ps d h
    refine ⟨?_, hsorted d, hperm d⟩
    unfold parse_micro_center_products
    rw [h]
    rfl

theorem claim_C7_witness :
    parse_newegg "ab<title>&#36;9.99 - Foo 4GB</title>".toList =
      .ok (pySort [(⟨999, 2⟩, "4GB@$9.99 Foo".toList)])
    ∧ List.Pairwise rTuple (pySort [(⟨999, 2⟩, "4GB@$9.99 Foo".toList)])
    ∧ (pySort [(⟨999, 2⟩, "4GB@$9.99 Foo".toList)]).Perm
        [(⟨999, 2⟩, "4GB@$9.99 Foo".toList)] :=
  claim_C7_sorted_by_tuple.1 "ab<title>&#36;9.99 - Foo 4GB</title>".toList
    [(⟨999, 2⟩, "4GB@$9.99 Foo".toList)] (by decide)

/-- C7, counterexample to the original claim: two titles with the same
price 9.99 are discovered with the 8GB listing first, but the returned list
has the 4GB listing first — the tie between equal prices is broken by
comparing the description strings, not by discovery order, so price is not
the sole sort key and ties do not keep discovery order. -/
theorem claim_C7_counterexample :
    neweggPairs ("<rss><title>&#36;9.99 - Foobar 8GB</title>" ++
        "<title>&#36;9.99 - Foobar 4GB</title></rss>").toList =
      .ok [(⟨999, 2⟩, "8GB@$9.99 Foobar".toList),
           (⟨999, 2⟩, "4GB@$9.99 Foobar".toList)]
    ∧ parse_newegg ("<rss><title>&#36;9.99 - Foobar 8GB</title>" ++
        "<title>&#36;9.99 - Foobar 4GB</title></rss>").toList =
      .ok [(⟨999, 2⟩, "4GB@$9.99 Foobar".toList),
           (⟨999, 2⟩, "8GB@$9.99 Foobar".toList)] := by decide

/-! ### The source's own unit-test and doctest vectors, checked against the
embedding -/

theorem source_doctests_parse_module_size :
    parse_module_size "4GB".toList = .ok (some (.single 4))
    ∧ parse_module_size "8 GB".toList = .ok (some (.single 8))
    ∧ parse_module_size "16GB (2x8GB)".toList = .ok (some (.pair 2 8))
    ∧ parse_module_size "(2 x 8GB) 16GB".toList = .ok (some (.pair 2 8))
    ∧ parse_module_size "".toList = .ok none
    ∧ parse_module_size "foobar".toList = .ok none
    ∧ parse_module_size "4 8GB".toList = .ok (some (.single 8))
    ∧ parse_module_size "Foobar 16 GB (2 x 8 GB) baz".toList =
        .ok (some (.pair 2 8)) := by decide

theorem source_tests_parse_description :
    parse_description "4GB@$14.99".toList = .ok (1, 0, decZero, [])
    ∧ parse_description "4GB@$14.99 ".toList = .ok (1, 4, ⟨1499, 2⟩, [])
    ∧ parse_description "4GB@$14.99 Foo".toList =
        .ok (1, 4, ⟨1499, 2⟩, "Foo".toList)
    ∧ parse_description "2x8GB@$28.99 Foo".toList =
        .ok (2, 8, ⟨2899, 2⟩, "Foo".toList)
    ∧ parse_description "10x1GB@$101.99 Foo".toList =
        .ok (10, 1, ⟨10199, 2⟩, "Foo".toList)
    ∧ parse_description "foobarbaz".toList = .error .valueError :=
  ⟨by decide, by decide, by decide, by decide, by decide, by decide⟩

theorem source_test_parse_newegg :
    parse_newegg ("<rss version=\"2.0\">\n<title>&#36;14.99 - Foobar 4GB</title>\n" ++
        "<title>&#36;24.99 - Foobar 8GB (2 x 4GB)</title>\n" ++
        "<title>&#36;18.99 - Foobar 8GB</title>\n" ++
        "<title>&#36;28.99 - Foobar 16GB (2 x 8GB)</title>\n</rss>\n").toList =
      .ok [(⟨1499, 2⟩, "4GB@$14.99 Foobar".toList),
           (⟨1899, 2⟩, "8GB@$18.99 Foobar".toList),
           (⟨2499, 2⟩, "2x4GB@$24.99 Foobar".toList),
           (⟨2899, 2⟩, "2x8GB@$28.99 Foobar".toList)] := by decide

theorem source_test_parse_micro_center :
    parse_micro_center_products
      [.obj (some "Foobar 4GB".toList) (some "Foobar".toList)
         (some "14.99".toList),
       .obj (some "Foobar 8GB (2 x 4GB)".toList) (some "Foobar".toList)
         (some "24.99".toList),
       .obj (some "Foobar 8GB".toList) (some "Foobar".toList)
         (some "18.99".toList),
       .obj (some "Foobar 16GB (2 x 8GB)".toList) (some "Foobar".toList)
         (some "28.99".toList)] =
      .ok [(⟨1499, 2⟩, "4GB@$14.99 Foobar".toList),
           (⟨1899, 2⟩, "8GB@$18.99 Foobar".toList),
           (⟨2499, 2⟩, "2x4GB@$24.99 Foobar".toList),
           (⟨2899, 2⟩, "2x8GB@$28.99 Foobar".toList)] := by decide

theorem source_test_parse_document :
    parse_document (.dict [(.date 0, .dict
      [("desktop".toList, .dict [("store".toList, .list
          [.str "4GB@$14.99 Foo".toList])]),
       ("laptop".toList, .dict [("store".toList, .list
          [.str "2x4GB@$24.99 Foo".toList])])])]) =
      .ok [(0, [⟨0, "desktop".toList, "store".toList, 1, 4, ⟨1499, 2⟩,
                 "foo".toList⟩,
        ⟨0, "laptop".toList, "store".toList, 2, 4, ⟨2499, 2⟩,
                 "foo".toList⟩])] := by decide
